import Mathlib

/-!
Verification development for the dependency-graph engine in `src/node.py`
(repository `ddugue/twine`).

The Python module is shallowly embedded below.  Python sets are modelled as
duplicate-free lists in insertion order (a deterministic choice of the
nondeterministic set-iteration order; all properties checked here are
order-insensitive).  Python generators are modelled as the lists they yield,
in yield order.  Exceptions (`assert` failures, `KeyError`,
`CircularDependencyError`) are modelled with `Option`/`Except`.  Unbounded
recursion in the source is modelled with an explicit fuel parameter; running
out of fuel is a distinguished error, so a successful result always
corresponds to a completed Python run.
-/

namespace Twine

/-! ## Filters (node.py lines 5-63) -/

/-- Dynamic values flowing through the filter mini-language.  The Python code
is dynamically typed; we model the values that the tests and filters touch:
`None`, integers, and objects carrying integer attributes. -/
inductive PyVal where
  | vnone
  | vint (n : Int)
  | vobj (attrs : List (String × Int))
deriving DecidableEq

/-- `getattr(value, key, None)`: attribute lookup with a `None` default.
Non-object values have none of the looked-up attributes. -/
def getAttr : PyVal → String → PyVal
  | .vobj attrs, k =>
    match attrs.lookup k with
    | some n => .vint n
    | none => .vnone
  | _, _ => .vnone

/-- `str.endswith` on our strings. -/
def strEndsWith (s suffix : String) : Bool :=
  List.isSuffixOf suffix.data s.data

/-- Characters of `key` before the first `__`, as in `key.split("__")[0]`. -/
def parseKeyAux : List Char → List Char
  | [] => []
  | '_' :: '_' :: _ => []
  | c :: rest => c :: parseKeyAux rest

/-- `BaseFilter.parse_key` (node.py 13-16). -/
def parseKey (key : String) : String :=
  String.mk (parseKeyAux key.data)

/-- Python `value > self.value`.  Ordered comparison of a non-integer with an
integer raises `TypeError` in Python; no filter in scope exercises that path,
and we model it as a non-match. -/
def pyGT : PyVal → Int → Bool
  | .vint i, j => decide (j < i)
  | _, _ => false

/-- Python `value >= self.value` (same `TypeError` caveat as `pyGT`). -/
def pyGE : PyVal → Int → Bool
  | .vint i, j => decide (j ≤ i)
  | _, _ => false

/-- Python `value < self.value` (same `TypeError` caveat as `pyGT`). -/
def pyLT : PyVal → Int → Bool
  | .vint i, j => decide (i < j)
  | _, _ => false

/-- Python `value <= self.value` (same `TypeError` caveat as `pyGT`). -/
def pyLE : PyVal → Int → Bool
  | .vint i, j => decide (i ≤ j)
  | _, _ => false

/-- Python `value == self.value`: cross-type equality is `False`. -/
def pyEQ : PyVal → Int → Bool
  | .vint i, j => decide (i = j)
  | _, _ => false

/-- Python `value != self.value`: cross-type inequality is `True`. -/
def pyNE : PyVal → Int → Bool
  | .vint i, j => decide (i ≠ j)
  | _, _ => true

/-- `BaseFilter` (node.py 5-11): a single keyword criterion `key=value`. -/
structure BaseFilter where
  key : String
  value : Int
deriving DecidableEq

/-- `BaseFilter.match` (node.py 18-38). -/
def matchBase (f : BaseFilter) (value : PyVal) : Bool :=
  let parsed := parseKey f.key
  let resolved := if parsed = "_self" then value else getAttr value parsed
  match resolved with
  | .vnone => false
  | r =>
    if strEndsWith f.key "__gt" then pyGT r f.value
    else if strEndsWith f.key "__gte" then pyGE r f.value
    else if strEndsWith f.key "__lt" then pyLT r f.value
    else if strEndsWith f.key "__lte" then pyLE r f.value
    else if strEndsWith f.key "__ne" then pyNE r f.value
    else pyEQ r f.value

/-- Filter objects: a base filter, or a composite combining a list of
sub-filters with AND (`AndFilter`) or OR (`OrFilter`). -/
inductive PyFilter where
  | base (f : BaseFilter)
  | and (filters : List PyFilter)
  | or (filters : List PyFilter)

mutual

/-- Dispatch of `.match` over the filter classes (node.py 18-63). -/
def matchFilter : PyFilter → PyVal → Bool
  | .base f, v => matchBase f v
  | .and fs, v => andLoop fs v true
  | .or fs, v => orLoop fs v false

/-- `AndFilter.match` (node.py 49-53): `is_match` starts `True` and the loop
folds `is_match &= filter.match(value)`. -/
def andLoop : List PyFilter → PyVal → Bool → Bool
  | [], _, acc => acc
  | f :: rest, v, acc => andLoop rest v (acc && matchFilter f v)

/-- `OrFilter.match` (node.py 59-63): `is_match` starts `False` and the loop
folds `is_match |= filter.match(value)`. -/
def orLoop : List PyFilter → PyVal → Bool → Bool
  | [], _, acc => acc
  | f :: rest, v, acc => orLoop rest v (acc || matchFilter f v)

end

/-- `AndFilter.__init__` (node.py 44-47): the supplied sub-filter list,
extended with one `BaseFilter` per keyword criterion. -/
def andInit (filters : List PyFilter) (query : List (String × Int)) : PyFilter :=
  .and (filters ++ query.map fun p => .base ⟨p.1, p.2⟩)

/-- `OrFilter` inherits `AndFilter.__init__` (node.py 56). -/
def orInit (filters : List PyFilter) (query : List (String × Int)) : PyFilter :=
  .or (filters ++ query.map fun p => .base ⟨p.1, p.2⟩)

/-! ## Vertex (node.py 67-93) -/

/-- `Vertex`: a directed dependency link, generic over the node-identifier
type (Python nodes are any hashable values; the tests use strings). -/
structure Vertex (α : Type) where
  vertex_type : String
  from_node : α
  to_node : α
  attributes : List (String × String)
deriving DecidableEq

/-- `Vertex.__init__` (node.py 70-81): the three `assert`s reject an
attribute bag containing a reserved field name; otherwise the attributes are
attached to the vertex. -/
def mkVertex (vertex_type : String) (f t : α) (attributes : List (String × String)) :
    Option (Vertex α) :=
  if "from_node" ∈ attributes.map Prod.fst then none
  else if "to_node" ∈ attributes.map Prod.fst then none
  else if "vertex_type" ∈ attributes.map Prod.fst then none
  else some ⟨vertex_type, f, t, attributes⟩

/-- `Vertex.__eq__` (node.py 83-87): equality looks only at the
`(vertex_type, from_node, to_node)` triple. -/
def vertexEqb [DecidableEq α] (v w : Vertex α) : Bool :=
  decide (v.vertex_type = w.vertex_type) && decide (v.from_node = w.from_node)
    && decide (v.to_node = w.to_node)

/-- `Vertex.__hash__` (node.py 89-90): the hash of the identity triple. -/
def vertexHash [Hashable α] (v : Vertex α) : UInt64 :=
  hash (v.vertex_type, v.from_node, v.to_node)

/-- Python `%`-formatting restricted to the `%s` directives used by
`Vertex.__str__`: each `%s` in the format consumes the next argument. -/
def formatPct : List Char → List String → List Char
  | '%' :: 's' :: rest, a :: args => a.data ++ formatPct rest args
  | c :: rest, args => c :: formatPct rest args
  | [], _ => []

/-- `Vertex.__str__` (node.py 92-93): `"(%s) --> (%s)" % (from_node, to_node)`. -/
def vertexStr (v : Vertex String) : String :=
  String.mk (formatPct "(%s) --> (%s)".data [v.from_node, v.to_node])

/-! ## Plugin base class (node.py 165-190) -/

/-- `Plugin.__init__` (node.py 169-171): `for key, value in kwargs:` iterates
the *keys* of the keyword mapping and unpacks each key string into two
variables, so a key must be exactly two characters long (otherwise Python
raises `ValueError`); `setattr(self, key, value)` then stores the second
character under an attribute named by the first character.  The result is
the list of attribute assignments actually performed. -/
def pluginInit : List (String × Int) → Option (List (String × String))
  | [] => some []
  | (k, _) :: rest =>
    if k.length = 2 then
      (pluginInit rest).map fun r => (String.mk (k.data.take 1), String.mk (k.data.drop 1)) :: r
    else none

/-- The producer contract consumed by the engine (`can_create_vertex` and
`vertices`, node.py 173-190): Python duck-typing is modelled by a record of
the two operations. -/
structure Producer (α : Type) where
  canCreateVertex : α → Bool
  vertices : α → List (Vertex α)

/-- The `file_extensions` configuration of `Plugin` (node.py 167): the
wildcard `"*"`, a single suffix string, or a collection of suffixes. -/
inductive FileExt where
  | star
  | single (s : String)
  | many (l : List String)

/-- `Plugin.can_create_vertex` (node.py 178-190), applied to the node's
name. -/
def canCreateVertexImpl (fe : FileExt) (name : String) : Bool :=
  match fe with
  | .star => true
  | .single s => strEndsWith name s
  | .many l => l.foldl (fun acc e => acc || strEndsWith name e) false

/-- `StaticDependencies` (node.py 192-204): a static table of rows
`(node, successors)`; `vertices(node)` yields a `"static"` vertex for every
successor of every row whose head is `node`, in table order.
`can_create_vertex` is inherited from `Plugin` with the default
`file_extensions = "*"`, which answers `True` for every node. -/
def staticDependencies [DecidableEq α] (deps : List (α × List α)) : Producer α where
  canCreateVertex := fun _ => true
  vertices := fun node =>
    (deps.filter fun d => decide (d.1 = node)).flatMap
      fun d => d.2.map fun s => ⟨"static", node, s, []⟩

/-! ## DependencyGraph (node.py 98-162) -/

/-- `set(...)` over node identifiers: a duplicate-free list in insertion
order. -/
def dedupList [DecidableEq α] (l : List α) : List α :=
  l.foldl (fun acc n => if n ∈ acc then acc else acc ++ [n]) []

/-- `set.add` for vertices: membership is decided by `Vertex.__eq__`, i.e.
by the identity triple, so a vertex equal to an already-present one (even
with different attributes) is not inserted again. -/
def addVertexSet [DecidableEq α] (s : List (Vertex α)) (v : Vertex α) : List (Vertex α) :=
  if s.any (fun w => vertexEqb w v) then s else s ++ [v]

/-- `set(generate_vertices())` (node.py 108): deduplicate the yielded
vertices by their identity triple, keeping first occurrences. -/
def dedupVertices [DecidableEq α] (l : List (Vertex α)) : List (Vertex α) :=
  l.foldl addVertexSet []

/-- `DependencyGraph.build_vertices` (node.py 145-154): ask every applicable
plugin for the node's vertices; for each produced vertex whose target is not
yet a known node, record the target and recursively expand it (yielding the
sub-expansion's vertices first), then yield the vertex itself.  The state is
the mutable `self.nodes` set threaded through the traversal; the recursion of
the source is bounded here by `fuel`, and exhausting it yields `none`. -/
def buildVertices [DecidableEq α] (plugins : List (Producer α)) :
    Nat → α → List α → Option (List α × List (Vertex α))
  | 0, _, _ => none
  | fuel + 1, node, nodes =>
    let vs := (plugins.filter fun p => p.canCreateVertex node).flatMap fun p => p.vertices node
    vs.foldl
      (fun acc v => do
        let (ns, out) ← acc
        if decide (v.to_node ∈ ns) then
          pure (ns, out ++ [v])
        else do
          let (ns1, sub) ← buildVertices plugins fuel v.to_node (ns ++ [v.to_node])
          pure (ns1, out ++ sub ++ [v]))
      (some (nodes, []))

/-- The `while nodes: ... build_vertices(nodes.pop())` loop of
`generate_vertices` (node.py 104-107).  The worklist is the snapshot of the
seed set; popping from the end of the Python list is modelled by passing the
snapshot reversed and consuming it head-first. -/
def discoverLoop [DecidableEq α] (plugins : List (Producer α)) (fuel : Nat) :
    List α → List α → Option (List α × List (Vertex α))
  | [], nodes => some (nodes, [])
  | node :: rest, nodes => do
    let (ns, vs) ← buildVertices plugins fuel node nodes
    let (ns2, vs2) ← discoverLoop plugins fuel rest ns
    pure (ns2, vs ++ vs2)

/-- The `while nodes:` elimination loop of `is_acyclic` (node.py 135-143).
The queue is appended to and popped from its end, i.e. it is a stack; it is
represented here with its top as the head.  `deleted` is the
`deleted_vertices` set.  On each pop the loop removes the popped node's
not-yet-deleted outgoing vertices and, after each removal, appends the
removed vertex's target whenever the *popped* node's incoming vertices are
all deleted (this is the source's literal condition).  Terminates on fuel. -/
def elimLoop [DecidableEq α] (vertices : List (Vertex α)) :
    Nat → List α → List (Vertex α) → Option Bool
  | _, [], deleted => some (decide (vertices.length = deleted.length))
  | 0, _ :: _, _ => none
  | fuel + 1, node :: stack, deleted =>
    let connected := (vertices.filter fun v => decide (v.from_node = node)).filter
      fun v => !deleted.any fun w => vertexEqb w v
    let res := connected.foldl
      (fun (p : List (Vertex α) × List α) v =>
        let del := p.1 ++ [v]
        let st :=
          if (vertices.filter fun w => decide (w.to_node = node)).all
              (fun w => del.any fun d => vertexEqb d w)
          then v.to_node :: p.2 else p.2
        (del, st))
      (deleted, stack)
    elimLoop vertices fuel res.2 res.1

/-- `DependencyGraph.is_acyclic` (node.py 116-143).  Building the
`connected_to`/`from_nodes` index subscripts both endpoints of every vertex
in dictionaries keyed by `self.nodes`, so a vertex endpoint outside `nodes`
raises `KeyError`; that failure (and fuel exhaustion) is `none`.  The initial
queue holds the nodes without incoming vertices, in node order; the
elimination then runs and the verdict compares the deleted-vertex count with
the total vertex count. -/
def isAcyclic [DecidableEq α] (nodes : List α) (vertices : List (Vertex α)) (fuel : Nat) :
    Option Bool :=
  if vertices.all (fun v => decide (v.to_node ∈ nodes) && decide (v.from_node ∈ nodes)) then
    elimLoop vertices fuel
      ((nodes.filter fun n => (vertices.filter fun v => decide (v.to_node = n)).isEmpty).reverse)
      []
  else none

/-- Failure modes of `DependencyGraph.__init__`: the
`CircularDependencyError` raise (node.py 110-111), and the catch-all for the
runs our fuel bound cannot finish (covering Python's `KeyError` inside
`is_acyclic` as well; a successful construction is unaffected). -/
inductive GraphError where
  | circular
  | exhausted
deriving DecidableEq

/-- The constructed graph: the final `self.nodes` and `self.vertices` sets. -/
structure DependencyGraph (α : Type) where
  nodes : List α
  vertices : List (Vertex α)
deriving DecidableEq

/-- `DependencyGraph.__init__` (node.py 100-111): seed the node set,
discover every reachable vertex, deduplicate, then raise
`CircularDependencyError` when `is_acyclic` answers `False`.  Only on
success does a graph value become visible. -/
def constructGraph [DecidableEq α] (seeds : List α) (plugins : List (Producer α))
    (fuel : Nat) : Except GraphError (DependencyGraph α) :=
  match discoverLoop plugins fuel (dedupList seeds).reverse (dedupList seeds) with
  | none => .error .exhausted
  | some (ns, gen) =>
    match isAcyclic ns (dedupVertices gen) fuel with
    | none => .error .exhausted
    | some false => .error .circular
    | some true => .ok ⟨ns, dedupVertices gen⟩

/-- `DependencyGraph.dependencies` (node.py 156-162): for every vertex whose
source is `node` (in vertex-set order) yield its target and, when `follow`
is set, recursively the target's dependencies.  The source recursion is
bounded by fuel; exhausting it yields `none`. -/
def dependenciesFn [DecidableEq α] (g : DependencyGraph α) (follow : Bool) :
    Nat → α → Option (List α)
  | 0, _ => none
  | fuel + 1, node =>
    (g.vertices.filter fun v => decide (v.from_node = node)).foldl
      (fun acc v => do
        let l ← acc
        if follow then do
          let sub ← dependenciesFn g follow fuel v.to_node
          pure (l ++ v.to_node :: sub)
        else
          pure (l ++ [v.to_node]))
      (some [])

/-! ## Auxiliary decidable set comparisons used by the concrete checks -/

/-- Two lists hold the same elements (set equality, order and multiplicity
ignored). -/
def listSetEqb [DecidableEq α] (l1 l2 : List α) : Bool :=
  l1.all (fun x => decide (x ∈ l2)) && l2.all (fun x => decide (x ∈ l1))

/-- A query result is present and holds exactly the given set of elements. -/
def optListSetEqb [DecidableEq α] : Option (List α) → List α → Bool
  | some l, l2 => listSetEqb l l2
  | none, _ => false

/-! ## Concrete inputs referenced by several claims -/

/-- Producer table of the cyclic input `S→(A,B)`, `A→(B)`, `B→(A)`. -/
def cyclicPlugins : List (Producer String) :=
  [staticDependencies [("S", ["A", "B"]), ("A", ["B"]), ("B", ["A"])]]

/-- The graph the engine returns for the cyclic input: it contains the
two-cycle `A→B→A`. -/
def cyclicGraph : DependencyGraph String :=
  ⟨["S", "A", "B"],
    [⟨"static", "B", "A", []⟩, ⟨"static", "A", "B", []⟩,
     ⟨"static", "S", "A", []⟩, ⟨"static", "S", "B", []⟩]⟩

/-- Producer table of an acyclic input with two seeds sharing a child:
`A→(B)`, `C→(B)`, `B→(D)`, `D→(E)`. -/
def dagPlugins : List (Producer String) :=
  [staticDependencies [("A", ["B"]), ("C", ["B"]), ("B", ["D"]), ("D", ["E"])]]

/-- Producer table of the worked example of the spec (§8) and of
`test_single_node`. -/
def examplePlugins : List (Producer String) :=
  [staticDependencies [("A", ["B", "C", "D"]), ("B", ["C", "D"]), ("D", ["E"])]]

/-- The graph constructed from seed `A` and `examplePlugins`. -/
def exampleGraph : DependencyGraph String :=
  ⟨["A", "B", "C", "D", "E"],
    [⟨"static", "B", "C", []⟩, ⟨"static", "D", "E", []⟩, ⟨"static", "B", "D", []⟩,
     ⟨"static", "A", "B", []⟩, ⟨"static", "A", "C", []⟩, ⟨"static", "A", "D", []⟩]⟩

/-- One-edge producer table used by the witnesses. -/
def simplePlugins : List (Producer String) :=
  [staticDependencies [("A", ["B"])]]

/-! ## Claims -/

/-- C1: the claim states that construction raises `CircularDependencyError`
iff the discovered graph has a directed cycle, and that no graph with a
cycle becomes visible.  The code violates it: for seeds `{S}` with producers
`S→(A,B)`, `A→(B)`, `B→(A)` the elimination of `is_acyclic` deletes all four
edges (its enqueue condition re-checks the popped node's incoming edges
instead of the target's), answers `True`, and construction succeeds,
returning a graph that contains both `A→B` and `B→A`.  Conversely, the
acyclic input `dagPlugins` with seeds `{A,C}` is rejected as circular. -/
theorem is_acyclic_wrong_verdicts :
    constructGraph ["S"] cyclicPlugins 100 = .ok cyclicGraph
    ∧ (⟨"static", "A", "B", []⟩ : Vertex String) ∈ cyclicGraph.vertices
    ∧ (⟨"static", "B", "A", []⟩ : Vertex String) ∈ cyclicGraph.vertices
    ∧ constructGraph ["A", "C"] dagPlugins 100 = .error .circular :=
  ⟨rfl, by decide, by decide, rfl⟩

/-- C2: for seeds `{A}` and the static table `A→(B,C,D)`, `B→(C,D)`,
`D→(E)`, construction succeeds with exactly the nodes `{A,B,C,D,E}` (five of
them) and the six deduplicated edges `A→B, A→C, A→D, B→C, B→D, D→E`, and the
transitive-dependency query yields the sets `{B,C,D,E}` for `A`, `{E}` for
`D`, and `{}` for `C`. -/
theorem example_graph_spec :
    constructGraph ["A"] examplePlugins 100 = .ok exampleGraph
    ∧ exampleGraph.nodes.length = 5
    ∧ listSetEqb exampleGraph.nodes ["A", "B", "C", "D", "E"] = true
    ∧ exampleGraph.vertices.length = 6
    ∧ listSetEqb (exampleGraph.vertices.map fun v => (v.from_node, v.to_node))
        [("A", "B"), ("A", "C"), ("A", "D"), ("B", "C"), ("B", "D"), ("D", "E")] = true
    ∧ optListSetEqb (dependenciesFn exampleGraph true 100 "A") ["B", "C", "D", "E"] = true
    ∧ optListSetEqb (dependenciesFn exampleGraph true 100 "D") ["E"] = true
    ∧ optListSetEqb (dependenciesFn exampleGraph true 100 "C") [] = true :=
  ⟨rfl, rfl, rfl, rfl, rfl, rfl, rfl, rfl⟩

/-- C4: two vertices are equal exactly when their
`(vertex_type, from_node, to_node)` triples agree, independently of the
attribute bags; equal triples hash equally; and inserting two vertices with
the same triple but different attributes into a vertex set leaves a single
element. -/
theorem vertex_identity :
    (∀ {α : Type} [DecidableEq α] (v w : Vertex α),
        vertexEqb v w = true ↔
          v.vertex_type = w.vertex_type ∧ v.from_node = w.from_node ∧ v.to_node = w.to_node)
    ∧ (∀ {α : Type} [Hashable α] (v w : Vertex α),
        v.vertex_type = w.vertex_type ∧ v.from_node = w.from_node ∧ v.to_node = w.to_node →
          vertexHash v = vertexHash w)
    ∧ (∀ {α : Type} [DecidableEq α] (t : String) (f g : α)
        (a1 a2 : List (String × String)),
        addVertexSet (addVertexSet [] ⟨t, f, g, a1⟩) ⟨t, f, g, a2⟩ = [⟨t, f, g, a1⟩]) := by
  refine ⟨?_, ?_, ?_⟩
  · intro α _ v w
    simp [vertexEqb, Bool.and_eq_true, decide_eq_true_iff, and_assoc]
  · intro α _ v w ⟨h1, h2, h3⟩
    simp only [vertexHash, h1, h2, h3]
  · intro α _ t f g a1 a2
    simp [addVertexSet, vertexEqb]

/-- Witness for C4: two concrete vertices with the same triple and different
attribute bags hash identically. -/
theorem vertex_identity_witness :
    vertexHash (⟨"static", "A", "B", [("weight", "3")]⟩ : Vertex String) =
      vertexHash (⟨"static", "A", "B", []⟩ : Vertex String) :=
  vertex_identity.2.1 _ _ ⟨rfl, rfl, rfl⟩

/-- C6: vertex construction fails exactly when the attribute bag uses one of
the three reserved field names (`vertex_type`, `from_node`, `to_node`, the
fields storing the kind, source and target); with no reserved name it
succeeds and attaches the attributes. -/
theorem vertex_reserved_attributes {α : Type} (t : String) (f g : α)
    (attrs : List (String × String)) :
    (mkVertex t f g attrs = none ↔
      "from_node" ∈ attrs.map Prod.fst ∨ "to_node" ∈ attrs.map Prod.fst ∨
        "vertex_type" ∈ attrs.map Prod.fst)
    ∧ ("from_node" ∉ attrs.map Prod.fst → "to_node" ∉ attrs.map Prod.fst →
        "vertex_type" ∉ attrs.map Prod.fst →
        mkVertex t f g attrs = some ⟨t, f, g, attrs⟩) := by
  unfold mkVertex
  split_ifs with h1 h2 h3 <;> simp_all

/-- Witness for C6: a bag with only the unreserved key `"color"` is accepted
and attached, as the second component of C6 asserts at a concrete input. -/
theorem vertex_reserved_attributes_witness :
    mkVertex "static" "A" "B" [("color", "red")] =
      some ⟨"static", "A", "B", [("color", "red")]⟩ :=
  (vertex_reserved_attributes "static" "A" "B" [("color", "red")]).2
    (by decide) (by decide) (by decide)

/-- C8 counterexample: the claim says the rendering of an edge from `A` to
`B` is exactly `"A --> B"`; the code yields `"(A) --> (B)"`. -/
theorem vertex_str_counterexample :
    vertexStr ⟨"static", "A", "B", []⟩ = "(A) --> (B)"
    ∧ vertexStr ⟨"static", "A", "B", []⟩ ≠ "A --> B" := by
  constructor <;> decide

/-- C8 (amended): the human-readable rendering of an edge is the source
name in parentheses, the literal arrow, and the target name in parentheses:
`"({from}) --> ({to})"`. -/
theorem vertex_str_amended (v : Vertex String) :
    (vertexStr v).data =
      '(' :: (v.from_node.data ++
        (')' :: ' ' :: '-' :: '-' :: '>' :: ' ' :: '(' :: (v.to_node.data ++ [')']))) :=
  rfl

/-- C9: an AND composite built from an empty sub-filter list and no keyword
criteria matches every value, and an OR composite built from an empty
sub-filter list matches none — the identity elements of conjunction and
disjunction. -/
theorem empty_composite_filters (v : PyVal) :
    matchFilter (andInit [] []) v = true ∧ matchFilter (orInit [] []) v = false :=
  ⟨rfl, rfl⟩

/-- A non-`none` verdict of `isAcyclic` is only possible when the index
construction succeeded, i.e. both endpoints of every vertex are known
nodes. -/
theorem isAcyclic_some_endpoints [DecidableEq α] {nodes : List α}
    {vertices : List (Vertex α)} {fuel : Nat} {b : Bool}
    (h : isAcyclic nodes vertices fuel = some b) :
    ∀ v ∈ vertices, v.from_node ∈ nodes ∧ v.to_node ∈ nodes := by
  unfold isAcyclic at h
  split at h
  · rename_i hall
    intro v hv
    have := List.all_eq_true.mp hall v hv
    simp only [Bool.and_eq_true, decide_eq_true_eq] at this
    exact ⟨this.2, this.1⟩
  · exact absurd h (by simp)

/-- A successfully constructed graph passed `is_acyclic`, whose index
construction subscripts both endpoints of every vertex. -/
theorem constructGraph_ok_isAcyclic [DecidableEq α] {seeds : List α}
    {plugins : List (Producer α)} {fuel : Nat} {g : DependencyGraph α}
    (h : constructGraph seeds plugins fuel = .ok g) :
    isAcyclic g.nodes g.vertices fuel = some true := by
  unfold constructGraph at h
  split at h
  · exact Except.noConfusion h
  · split at h
    · exact Except.noConfusion h
    · exact Except.noConfusion h
    · rename_i heq
      injection h with h2
      subst h2
      exact heq

/-- Endpoint membership for every successfully constructed graph. -/
theorem constructGraph_ok_endpoints [DecidableEq α] {seeds : List α}
    {plugins : List (Producer α)} {fuel : Nat} {g : DependencyGraph α}
    (h : constructGraph seeds plugins fuel = .ok g) :
    ∀ v ∈ g.vertices, v.from_node ∈ g.nodes ∧ v.to_node ∈ g.nodes :=
  isAcyclic_some_endpoints (constructGraph_ok_isAcyclic h)

/-- C5: in every successfully constructed graph — any seed set, any
producers — both endpoints of every edge of the final edge set belong to the
final node set. -/
theorem graph_edge_endpoints {α : Type} [DecidableEq α] (seeds : List α)
    (plugins : List (Producer α)) (fuel : Nat) (g : DependencyGraph α)
    (h : constructGraph seeds plugins fuel = .ok g) :
    ∀ v ∈ g.vertices, v.from_node ∈ g.nodes ∧ v.to_node ∈ g.nodes :=
  constructGraph_ok_endpoints h

/-- The concrete one-edge construction used by the witnesses below. -/
theorem simpleGraph_ok :
    constructGraph ["A"] simplePlugins 10 =
      .ok ⟨["A", "B"], [⟨"static", "A", "B", []⟩]⟩ :=
  rfl

/-- Witness for C5: the invariant instantiated on a concrete successful
construction. -/
theorem graph_edge_endpoints_witness :
    ("A" ∈ (["A", "B"] : List String)) ∧ ("B" ∈ (["A", "B"] : List String)) :=
  graph_edge_endpoints ["A"] simplePlugins 10
    ⟨["A", "B"], [⟨"static", "A", "B", []⟩]⟩ simpleGraph_ok
    ⟨"static", "A", "B", []⟩ (by decide)

/-- C7: on a successfully constructed graph, a node that is unknown to the
graph, or has no outgoing edges, makes both the direct (`follow = false`)
and the transitive (`follow = true`) dependency query return the empty
sequence without error. -/
theorem dependencies_no_failure {α : Type} [DecidableEq α] (seeds : List α)
    (plugins : List (Producer α)) (fuel fuel2 : Nat) (g : DependencyGraph α)
    (node : α) (follow : Bool)
    (hok : constructGraph seeds plugins fuel = .ok g)
    (hnode : node ∉ g.nodes ∨ ∀ v ∈ g.vertices, v.from_node ≠ node) :
    dependenciesFn g follow (fuel2 + 1) node = some [] := by
  have hempty : (g.vertices.filter fun v => decide (v.from_node = node)) = [] := by
    rw [List.filter_eq_nil_iff]
    intro v hv
    simp only [decide_eq_true_eq]
    rcases hnode with hn | hno
    · intro he
      exact hn (he ▸ (constructGraph_ok_endpoints hok v hv).1)
    · exact hno v hv
  simp [dependenciesFn, hempty]

/-- Witness for C7: querying the unknown node `"Z"` transitively on a
concrete constructed graph yields the empty sequence. -/
theorem dependencies_no_failure_witness :
    dependenciesFn (⟨["A", "B"], [⟨"static", "A", "B", []⟩]⟩ : DependencyGraph String)
      true 6 "Z" = some [] :=
  dependencies_no_failure ["A"] simplePlugins 10 5 _ "Z" true simpleGraph_ok (Or.inl (by decide))

/-- C10: constructing the base `Plugin` with any keyword argument whose name
is not exactly two characters long fails, because the constructor iterates
the keyword mapping itself (its keys) and unpacks each key string into two
variables; and no keyword argument is ever stored under its own name — a
two-character name `c₁c₂` stores the attribute named by its first character
instead. -/
theorem plugin_kwargs_unpack (kwargs : List (String × Int)) :
    ((∃ p ∈ kwargs, p.1.length ≠ 2) → pluginInit kwargs = none)
    ∧ (∀ attrs, pluginInit kwargs = some attrs →
        (∀ p ∈ kwargs, p.1.length = 2)
        ∧ attrs = (kwargs.map fun p =>
            (String.mk (p.1.data.take 1), String.mk (p.1.data.drop 1)))
        ∧ (∀ q ∈ attrs, q.1.length = 1)
        ∧ (∀ p ∈ kwargs, ∀ q ∈ attrs, q.1 ≠ p.1)) := by
  induction kwargs with
  | nil =>
    refine ⟨fun ⟨p, hp, _⟩ => absurd hp (List.not_mem_nil p), fun attrs h => ?_⟩
    simp only [pluginInit, Option.some.injEq] at h
    subst h
    simp
  | cons hd tl ih =>
    obtain ⟨k, i⟩ := hd
    constructor
    · rintro ⟨p, hp, hlen⟩
      by_cases hk : k.length = 2
      · rcases List.mem_cons.mp hp with rfl | hmem
        · exact absurd hk hlen
        · have htl := ih.1 ⟨p, hmem, hlen⟩
          simp [pluginInit, hk, htl]
      · simp [pluginInit, hk]
    · intro attrs h
      by_cases hk : k.length = 2
      · simp only [pluginInit, hk, if_pos, Option.map_eq_some'] at h
        obtain ⟨r, hr, rfl⟩ := h
        obtain ⟨ht2, hmap, ht1, _⟩ := ih.2 r hr
        have hdata : k.data.length = 2 := hk
        have hname1 : (String.mk (k.data.take 1)).length = 1 := by
          simp [String.length, List.length_take, hdata]
        refine ⟨?_, ?_, ?_, ?_⟩
        · intro p hp
          rcases List.mem_cons.mp hp with rfl | hmem
          · exact hk
          · exact ht2 p hmem
        · rw [List.map_cons, hmap]
        · intro q hq
          rcases List.mem_cons.mp hq with rfl | hmem
          · exact hname1
          · exact ht1 q hmem
        · intro p hp q hq he
          have hq1 : q.1.length = 1 := by
            rcases List.mem_cons.mp hq with rfl | hmem
            · exact hname1
            · exact ht1 q hmem
          have hp2 : p.1.length = 2 := by
            rcases List.mem_cons.mp hp with rfl | hmem
            · exact hk
            · exact ht2 p hmem
          rw [he, hp2] at hq1
          exact absurd hq1 (by decide)
      · simp [pluginInit, hk] at h

/-- A producer generating the linear chain `0 → 1 → ⋯ → n-1`: node `k` has
the single outgoing edge `k → k+1` whenever `k+1 < n`. -/
def chainProducer (n : Nat) : Producer Nat where
  canCreateVertex := fun _ => true
  vertices := fun k => if k + 1 < n then [⟨"static", k, k + 1, []⟩] else []

/-- The chain edge `k → k+1`. -/
def chainVertex (k : Nat) : Vertex Nat :=
  ⟨"static", k, k + 1, []⟩

/-- The `m` consecutive chain edges starting at node `k`, in the order the
engine yields them for a chain (deepest edge first). -/
def chainEdgesBetween (k m : Nat) : List (Vertex Nat) :=
  ((List.range' k m).map chainVertex).reverse

/-- The full edge set of the chain on `m + 1` nodes, in discovery order. -/
def chainEdges (m : Nat) : List (Vertex Nat) :=
  ((List.range m).map chainVertex).reverse

/-- The first `k` chain edges in elimination (deletion) order. -/
def delPrefix (k : Nat) : List (Vertex Nat) :=
  (List.range k).map chainVertex

theorem chainEdges_eq (m : Nat) : chainEdges m = chainEdgesBetween 0 m := by
  simp [chainEdges, chainEdgesBetween, List.range_eq_range']

theorem chainEdgesBetween_succ (k m : Nat) :
    chainEdgesBetween k (m + 1) = chainEdgesBetween (k + 1) m ++ [chainVertex k] := by
  simp [chainEdgesBetween, List.range'_succ]

theorem vertexEqb_chainVertex (i j : Nat) :
    vertexEqb (chainVertex i) (chainVertex j) = decide (i = j) := by
  by_cases h : i = j <;> simp [vertexEqb, chainVertex, h]

theorem range'_filter_eq (k : Nat) : ∀ m s : Nat,
    (List.range' s m).filter (fun j => decide (j = k)) =
      if s ≤ k ∧ k < s + m then [k] else [] := by
  intro m
  induction m with
  | zero =>
    intro s
    rw [if_neg (by omega)]
    rfl
  | succ m ih =>
    intro s
    rw [List.range'_succ, List.filter_cons]
    by_cases hs : s = k
    · subst hs
      have htail : (List.range' (s + 1) m).filter (fun j => decide (j = s)) = [] := by
        rw [List.filter_eq_nil_iff]
        intro j hj
        have := List.mem_range'_1.mp hj
        simp only [decide_eq_true_eq]
        omega
      rw [if_pos (by simp), htail, if_pos (by omega)]
    · rw [if_neg (by simpa using hs), ih (s + 1)]
      split_ifs with h1 h2 h2 <;> first | rfl | omega

theorem range'_filter_succ_eq (k : Nat) : ∀ m s : Nat,
    (List.range' s m).filter (fun j => decide (j + 1 = k)) =
      if s + 1 ≤ k ∧ k < s + m + 1 then [k - 1] else [] := by
  intro m
  induction m with
  | zero =>
    intro s
    rw [if_neg (by omega)]
    rfl
  | succ m ih =>
    intro s
    rw [List.range'_succ, List.filter_cons]
    by_cases hs : s + 1 = k
    · have htail : (List.range' (s + 1) m).filter (fun j => decide (j + 1 = k)) = [] := by
        rw [List.filter_eq_nil_iff]
        intro j hj
        have := List.mem_range'_1.mp hj
        simp only [decide_eq_true_eq]
        omega
      rw [if_pos (by simpa using hs), htail, if_pos (by omega)]
      have : s = k - 1 := by omega
      rw [this]
    · rw [if_neg (by simpa using hs), ih (s + 1)]
      split_ifs with h1 h2 h2 <;> first | rfl | omega

theorem chainEdges_filter_from (m k : Nat) :
    (chainEdges m).filter (fun v => decide (v.from_node = k)) =
      if k < m then [chainVertex k] else [] := by
  rw [chainEdges, List.range_eq_range', List.filter_reverse, List.filter_map]
  have hcomp : ((fun v => decide (v.from_node = k)) ∘ chainVertex) =
      fun j => decide (j = k) := by
    funext j
    rfl
  rw [hcomp, range'_filter_eq]
  split_ifs with h1 h2 h2 <;> first | rfl | omega

theorem chainEdges_filter_to (m k : Nat) :
    (chainEdges m).filter (fun v => decide (v.to_node = k)) =
      if 1 ≤ k ∧ k ≤ m then [chainVertex (k - 1)] else [] := by
  rw [chainEdges, List.range_eq_range', List.filter_reverse, List.filter_map]
  have hcomp : ((fun v => decide (v.to_node = k)) ∘ chainVertex) =
      fun j => decide (j + 1 = k) := by
    funext j
    rfl
  rw [hcomp, range'_filter_succ_eq]
  split_ifs with h1 h2 h2 <;> first | rfl | omega

theorem delPrefix_succ (k : Nat) :
    delPrefix (k + 1) = delPrefix k ++ [chainVertex k] := by
  simp [delPrefix, List.range_succ]

theorem delPrefix_any_eqb (k j : Nat) :
    (delPrefix k).any (fun w => vertexEqb w (chainVertex j)) = decide (j < k) := by
  by_cases hj : j < k
  · rw [decide_eq_true hj]
    rw [List.any_eq_true]
    refine ⟨chainVertex j, ?_, by simp [vertexEqb_chainVertex]⟩
    exact List.mem_map_of_mem chainVertex (List.mem_range.mpr hj)
  · rw [decide_eq_false hj]
    rw [List.any_eq_false]
    intro w hw
    obtain ⟨i, hi, rfl⟩ := List.mem_map.mp hw
    have : i < k := List.mem_range.mp hi
    rw [vertexEqb_chainVertex]
    simp only [decide_eq_true_eq]
    omega

theorem foldl_addVertexSet_distinct [DecidableEq α] :
    ∀ (l acc : List (Vertex α)),
      (∀ v ∈ l, acc.any (fun w => vertexEqb w v) = false) →
      l.Pairwise (fun a b => vertexEqb a b = false) →
      l.foldl addVertexSet acc = acc ++ l := by
  intro l
  induction l with
  | nil => intro acc _ _; simp
  | cons v rest ih =>
    intro acc hacc hp
    have hstep : addVertexSet acc v = acc ++ [v] := by
      rw [addVertexSet, if_neg]
      rw [hacc v (List.mem_cons_self v rest)]
      simp
    rw [List.foldl_cons, hstep, ih (acc ++ [v]) ?_ (List.Pairwise.sublist (by simp) hp)]
    · simp
    · intro u hu
      rw [List.any_append]
      rw [hacc u (List.mem_cons_of_mem v hu)]
      have := (List.pairwise_cons.mp hp).1 u hu
      simp [this]

theorem dedupVertices_chainEdges (m : Nat) :
    dedupVertices (chainEdges m) = chainEdges m := by
  have hp : (chainEdges m).Pairwise (fun a b => vertexEqb a b = false) := by
    rw [chainEdges, List.pairwise_reverse, List.pairwise_map]
    have hnd : (List.range m).Pairwise (· < ·) := List.pairwise_lt_range m
    refine hnd.imp ?_
    intro a b hab
    rw [vertexEqb_chainVertex]
    simp only [decide_eq_false_iff_not]
    omega
  have := foldl_addVertexSet_distinct (chainEdges m) [] (by simp) hp
  simpa [dedupVertices] using this

theorem buildVertices_chain (n : Nat) : ∀ fuel k : Nat, k < n → n - k ≤ fuel →
    buildVertices [chainProducer n] fuel k (List.range (k + 1)) =
      some (List.range n, chainEdgesBetween k (n - 1 - k)) := by
  intro fuel
  induction fuel with
  | zero => intro k hk hf; omega
  | succ fuel ih =>
    intro k hk hf
    rw [buildVertices]
    have hplug : ([chainProducer n].filter fun p => p.canCreateVertex k) =
        [chainProducer n] := rfl
    rw [hplug]
    by_cases hkn : k + 1 < n
    · have hvs : ([chainProducer n].flatMap fun p => p.vertices k) = [chainVertex k] := by
        simp [chainProducer, chainVertex, if_pos hkn]
      rw [hvs, List.foldl_cons, List.foldl_nil]
      have hmem : decide ((chainVertex k).to_node ∈ List.range (k + 1)) = false := by
        simp [chainVertex, List.mem_range]
      have hto : (chainVertex k).to_node = k + 1 := rfl
      have hrange : List.range (k + 1) ++ [k + 1] = List.range (k + 1 + 1) :=
        (List.range_succ (k + 1)).symm
      simp only [hmem, Bool.false_eq_true, if_false, hto, hrange,
        ih (k + 1) hkn (by omega), Option.bind_eq_bind, Option.some_bind]
      have harith : n - 1 - k = (n - 1 - (k + 1)) + 1 := by omega
      rw [harith, chainEdgesBetween_succ]
      simp
    · have hn : n = k + 1 := by omega
      have hvs : ([chainProducer n].flatMap fun p => p.vertices k) = [] := by
        simp [chainProducer, if_neg hkn]
      rw [hvs, List.foldl_nil]
      have harith : n - 1 - k = 0 := by omega
      rw [harith, hn]
      rfl


theorem elimLoop_chain (m : Nat) : ∀ fuel k : Nat, k ≤ m → m - k < fuel →
    elimLoop (chainEdges m) fuel [k] (delPrefix k) = some true := by
  intro fuel
  induction fuel with
  | zero => intro k hk hf; omega
  | succ fuel ih =>
    intro k hk hf
    rw [elimLoop]
    by_cases hkm : k < m
    · have hconn : ((chainEdges m).filter fun v => decide (v.from_node = k)).filter
          (fun v => !(delPrefix k).any fun w => vertexEqb w v) = [chainVertex k] := by
        rw [chainEdges_filter_from, if_pos hkm, List.filter_cons]
        rw [delPrefix_any_eqb]
        simp
      rw [hconn, List.foldl_cons, List.foldl_nil]
      have hcond : ((chainEdges m).filter fun w => decide (w.to_node = k)).all
          (fun w => (delPrefix k ++ [chainVertex k]).any fun d => vertexEqb d w) = true := by
        rw [List.all_eq_true]
        intro w hw
        rw [chainEdges_filter_to] at hw
        split_ifs at hw with h1
        · rw [List.mem_singleton.mp hw, ← delPrefix_succ, delPrefix_any_eqb]
          simp only [decide_eq_true_eq]
          omega
        · exact absurd hw (List.not_mem_nil w)
      simp only [hcond, if_true]
      have hto : (chainVertex k).to_node = k + 1 := rfl
      rw [hto, ← delPrefix_succ]
      exact ih (k + 1) (by omega) (by omega)
    · have hk' : k = m := by omega
      subst hk'
      have hconn : ((chainEdges k).filter fun v => decide (v.from_node = k)).filter
          (fun v => !(delPrefix k).any fun w => vertexEqb w v) = [] := by
        rw [chainEdges_filter_from, if_neg (by omega)]
        rfl
      rw [hconn, List.foldl_nil]
      show elimLoop (chainEdges k) fuel [] (delPrefix k) = some true
      rw [elimLoop]
      have hlen : (chainEdges k).length = (delPrefix k).length := by
        simp [chainEdges, delPrefix]
      rw [hlen]
      simp


theorem isAcyclic_chain (m fuel : Nat) (hf : m < fuel) :
    isAcyclic (List.range (m + 1)) (chainEdges m) fuel = some true := by
  rw [isAcyclic, if_pos]
  · have hqueue : ((List.range (m + 1)).filter fun t =>
        ((chainEdges m).filter fun v => decide (v.to_node = t)).isEmpty) = [0] := by
      rw [List.range_eq_range', List.range'_succ, List.filter_cons]
      have h0 : ((chainEdges m).filter fun v => decide (v.to_node = 0)).isEmpty = true := by
        rw [chainEdges_filter_to, if_neg (by omega)]
        rfl
      rw [h0, if_pos rfl]
      have htail : ((List.range' (0 + 1) m).filter fun t =>
          ((chainEdges m).filter fun v => decide (v.to_node = t)).isEmpty) = [] := by
        rw [List.filter_eq_nil_iff]
        intro t ht
        have hmem := List.mem_range'_1.mp ht
        rw [chainEdges_filter_to, if_pos (by omega)]
        simp
      rw [htail]
    rw [hqueue]
    show elimLoop (chainEdges m) fuel [0] [] = some true
    have h0 : delPrefix 0 = [] := rfl
    rw [← h0]
    exact elimLoop_chain m fuel 0 (by omega) (by omega)
  · rw [List.all_eq_true]
    intro v hv
    rw [chainEdges] at hv
    obtain ⟨j, hj, rfl⟩ := List.mem_map.mp (List.mem_reverse.mp hv)
    have hjm : j < m := List.mem_range.mp hj
    simp only [chainVertex, Bool.and_eq_true, decide_eq_true_eq]
    constructor <;> rw [List.mem_range] <;> omega

theorem dependenciesFn_chain (m : Nat) : ∀ fuel k : Nat, k ≤ m → m - k < fuel →
    dependenciesFn ⟨List.range (m + 1), chainEdges m⟩ true fuel k =
      some (List.range' (k + 1) (m - k)) := by
  intro fuel
  induction fuel with
  | zero => intro k hk hf; omega
  | succ fuel ih =>
    intro k hk hf
    rw [dependenciesFn]
    show ((chainEdges m).filter fun v => decide (v.from_node = k)).foldl _ (some []) = _
    rw [chainEdges_filter_from]
    by_cases hkm : k < m
    · rw [if_pos hkm, List.foldl_cons, List.foldl_nil]
      have hto : (chainVertex k).to_node = k + 1 := rfl
      simp only [hto, ih (k + 1) (by omega) (by omega), Option.bind_eq_bind,
        Option.some_bind]
      have harith : m - k = (m - (k + 1)) + 1 := by omega
      rw [harith, List.range'_succ]
      rfl
    · have hk' : k = m := by omega
      subst hk'
      rw [if_neg (by omega), List.foldl_nil]
      have hz : k - k = 0 := by omega
      rw [hz]
      rfl

/-- For every chain length, construction succeeds with exactly the chain's
nodes and edges whenever the fuel covers the chain depth. -/
theorem constructGraph_chain (m fuel : Nat) (hf : m + 1 ≤ fuel) :
    constructGraph [0] [chainProducer (m + 1)] fuel =
      .ok ⟨List.range (m + 1), chainEdges m⟩ := by
  rw [constructGraph]
  have hseeds : dedupList ([0] : List Nat) = [0] := rfl
  rw [hseeds]
  have hdisc : discoverLoop [chainProducer (m + 1)] fuel ([0] : List Nat).reverse [0] =
      some (List.range (m + 1), chainEdges m) := by
    show discoverLoop [chainProducer (m + 1)] fuel [0] [0] = _
    rw [discoverLoop]
    have h1 : List.range (0 + 1) = [0] := rfl
    rw [← h1, buildVertices_chain (m + 1) fuel 0 (by omega) (by omega)]
    rw [Option.bind_eq_bind, Option.some_bind]
    show (Option.bind (discoverLoop [chainProducer (m + 1)] fuel [] (List.range (m + 1))) _) = _
    rw [discoverLoop]
    show some (List.range (m + 1), chainEdgesBetween 0 (m + 1 - 1 - 0) ++ []) =
      some (List.range (m + 1), chainEdges m)
    rw [List.append_nil, chainEdges_eq]
    rfl
  rw [hdisc]
  show (match isAcyclic (List.range (m + 1)) (dedupVertices (chainEdges m)) fuel with
    | none => (Except.error GraphError.exhausted : Except GraphError (DependencyGraph Nat))
    | some false => Except.error GraphError.circular
    | some true =>
      Except.ok (DependencyGraph.mk (List.range (m + 1)) (dedupVertices (chainEdges m)))) = _
  rw [dedupVertices_chainEdges, isAcyclic_chain m fuel (by omega)]

/-- C3: the claim asserts that discovery and the transitive query are
implemented with an explicit worklist rather than native call recursion, so
that a chain of N sequentially dependent nodes (N in the hundreds) is
discovered, validated and queried without stack exhaustion.  The source
instead recurses once per chain hop in both `build_vertices` (node.py
151-153, with a comment acknowledging the limitation) and `dependencies`
(node.py 162); call-stack exhaustion itself is outside this embedding.
This theorem verifies the functional half for every chain length `m + 1`:
discovery finds all `m + 1` nodes and `m` edges, validation accepts, and the
transitive query on the head returns exactly the `m` descendants
`1, …, m` — that is, all N−1 descendants for N = m+1. -/
theorem chain_discovery_and_query (m fuel : Nat) (hfuel : m + 1 ≤ fuel) :
    constructGraph [0] [chainProducer (m + 1)] fuel =
      .ok ⟨List.range (m + 1), chainEdges m⟩
    ∧ dependenciesFn ⟨List.range (m + 1), chainEdges m⟩ true fuel 0 =
      some (List.range' 1 m)
    ∧ (List.range (m + 1)).length = m + 1 ∧ (List.range' 1 m).length = m := by
  refine ⟨constructGraph_chain m fuel hfuel, ?_, by simp, by simp⟩
  have := dependenciesFn_chain m fuel 0 (by omega) (by omega)
  simpa using this

/-- Witness for C3: the functional chain property instantiated on the
300-node chain. -/
theorem chain_discovery_and_query_witness :
    constructGraph [0] [chainProducer 300] 300 = .ok ⟨List.range 300, chainEdges 299⟩
    ∧ dependenciesFn ⟨List.range 300, chainEdges 299⟩ true 300 0 =
      some (List.range' 1 299)
    ∧ (List.range 300).length = 300 ∧ (List.range' 1 299).length = 299 :=
  chain_discovery_and_query 299 300 (by omega)


/-- Witness for C10: a three-character keyword name makes construction fail. -/
theorem plugin_kwargs_unpack_witness :
    pluginInit [("abc", (0 : Int))] = none :=
  (plugin_kwargs_unpack [("abc", 0)]).1 ⟨("abc", 0), by decide, by decide⟩

end Twine
